import Mathlib

/-!
Shallow embedding of the jgit native filesystem bridge
(src/libjgit_native/src: util.c, lstat.c, list.c, symlink.c, libjgit.h).

Modelling conventions:
* JNI reference results are modelled as `Option`: `none` is a NULL return.
* A JNI call that fails leaves a pending exception; we model the pending
  exception slot as an `Option RaisedError`.  `ThrowNew` (and the JVM's own
  internal throws, e.g. the `OutOfMemoryError` raised when `NewObjectArray`
  returns NULL) *replace* whatever exception was pending, which is the
  observable HotSpot behaviour when native code throws while an exception
  is already pending.
* OS syscalls and allocation outcomes are supplied by explicit oracle
  records, so every theorem quantifies over all possible OS behaviours.
* Machine integers: `size_t` arithmetic is `Nat` taken modulo `2^64`,
  `(jint)` casts truncate modulo `2^32`, `(jlong)` casts modulo `2^64`.
-/

namespace JGit

/-- POSIX errno values used by the sources (Linux numbering). -/
def EACCES : Nat := 13

/-- errno: no such file or directory. -/
def ENOENT : Nat := 2

/-- errno: not a directory. -/
def ENOTDIR : Nat := 20

/-- errno: out of native memory, set by a failing `malloc`. -/
def ENOMEM : Nat := 12

/-- errno: bad address, produced by passing a NULL path to a syscall. -/
def EFAULT : Nat := 14

/-- errno: file name too long, produced by `symlink(2)` on an oversized
target. -/
def ENAMETOOLONG : Nat := 36

/-- dirent `d_type` constant `DT_UNKNOWN`. -/
def DT_UNKNOWN : Nat := 0

/-- dirent `d_type` constant `DT_DIR`. -/
def DT_DIR : Nat := 4

/-- dirent `d_type` constant `DT_REG`. -/
def DT_REG : Nat := 8

/-- dirent `d_type` constant `DT_LNK`. -/
def DT_LNK : Nat := 10

/-- Width bound for `(jint)` truncation. -/
def two32 : Nat := 2 ^ 32

/-- Width bound for `(jlong)` truncation and `size_t` arithmetic. -/
def two64 : Nat := 2 ^ 64

/-- The C `(jint)` cast of a nonnegative syscall value: low 32 bits. -/
def jintCast (v : Nat) : Nat := v % two32

/-- The C `(jlong)` cast of a nonnegative syscall value: low 64 bits. -/
def jlongCast (v : Nat) : Nat := v % two64

/-- Model of libc `strerror`: the human-readable system message for an
errno value.  The bridge never inspects the text, it only passes it on,
so any injective rendering is adequate. -/
def strerror (e : Nat) : String := "system error " ++ toString e

/-- Exception class name used for EACCES (util.c line 62, lstat.c line 138). -/
def accessDeniedCls : String := "org/eclipse/jgit/util/fs/AccessDeniedException"

/-- Exception class name used for ENOENT (util.c line 63, lstat.c line 143). -/
def noSuchFileCls : String := "org/eclipse/jgit/util/fs/NoSuchFileException"

/-- Exception class name used for ENOTDIR (util.c line 64, lstat.c line 148). -/
def notDirectoryCls : String := "org/eclipse/jgit/util/fs/NotDirectoryException"

/-- Generic OS-error class thrown by `jgit_ThrowErrno` (util.c line 65). -/
def nativeExceptionCls : String := "org/eclipse/jgit/util/fs/NativeException"

/-- Generic OS-error class thrown by the stat prober's own switch
(lstat.c line 153). -/
def lstatExceptionCls : String := "org/eclipse/jgit/util/fs/LStatException"

/-- Allocation-failure class (util.c line 66), also what the JVM itself
raises when a JNI allocation returns NULL. -/
def outOfMemoryCls : String := "java/lang/OutOfMemoryError"

/-- A raised host exception: the class it was constructed from and its
message (`none` models a NULL message pointer). -/
structure RaisedError where
  cls : String
  msg : Option String
deriving DecidableEq

/-- The spec's typed-error taxonomy (spec section 3, "Typed Error"). -/
inductive ErrKind where
  | accessDenied
  | noSuchFile
  | notDirectory
  | nativeFailure
  | outOfMemory
deriving DecidableEq

/-- Abstraction from host exception class names to the spec's taxonomy.
Both `NativeException` and `LStatException` are a "generic OS error
carrying an errno-derived message", which is exactly the spec's
NativeFailure category. -/
def errKindOf (c : String) : Option ErrKind :=
  if c = accessDeniedCls then some .accessDenied
  else if c = noSuchFileCls then some .noSuchFile
  else if c = notDirectoryCls then some .notDirectory
  else if c = nativeExceptionCls then some .nativeFailure
  else if c = lstatExceptionCls then some .nativeFailure
  else if c = outOfMemoryCls then some .outOfMemory
  else none

/-- util.c `jgit_ThrowOutOfMemory` (lines 82-84): throws
`java/lang/OutOfMemoryError` with a NULL message. -/
def jgit_ThrowOutOfMemory : RaisedError := ⟨outOfMemoryCls, none⟩

/-- util.c `jgit_ThrowErrno` (lines 86-112): the centralized errno→typed
error mapping.  `path` is the `path_str` argument (NULL possible). -/
def jgit_ThrowErrno (e : Nat) (path : Option String) : RaisedError :=
  if e = EACCES then ⟨accessDeniedCls, path⟩
  else if e = ENOENT then ⟨noSuchFileCls, path⟩
  else if e = ENOTDIR then ⟨notDirectoryCls, path⟩
  else ⟨nativeExceptionCls, some (strerror e)⟩

/-- Host-runtime outcomes for one `jgit_GetStringNative` call. -/
structure GsnOracle where
  ensureCapOk : Bool
  getBytesErr : Option RaisedError
  mallocOk : Bool
deriving DecidableEq

/-- The all-success marshaling oracle. -/
def gsnOk : GsnOracle := ⟨true, none, true⟩

/-- Result of `jgit_GetStringNative`: the marshaled buffer (if any), the
pending exception after the call, and the errno value after the call. -/
structure GsnOut where
  res : Option String
  pending : Option RaisedError
  errnoAfter : Nat
deriving DecidableEq

/-- util.c `jgit_GetStringNative` (lines 114-143).  `EnsureLocalCapacity`
failure throws OutOfMemoryError; a pending exception from
`String.getBytes` is left pending (the code only deletes local refs, it
does not clear it); `malloc` failure sets errno to ENOMEM and throws
OutOfMemoryError; on success the caller owns a NUL-terminated copy of the
string's bytes, modelled by the string itself. -/
def jgit_GetStringNative (o : GsnOracle) (errno0 : Nat) (s : String) : GsnOut :=
  if !o.ensureCapOk then ⟨none, some jgit_ThrowOutOfMemory, errno0⟩
  else
    match o.getBytesErr with
    | some e => ⟨none, some e, errno0⟩
    | none =>
      if !o.mallocOk then ⟨none, some jgit_ThrowOutOfMemory, ENOMEM⟩
      else ⟨some s, none, errno0⟩

/-- The `struct stat` fields read by lstat.c, as raw nonnegative syscall
values. -/
structure StatData where
  st_dev : Nat
  st_ino : Nat
  st_mode : Nat
  st_uid : Nat
  st_gid : Nat
  st_size : Nat
  st_ctime : Nat
  st_mtime : Nat
  st_ctimensec : Nat
  st_mtimensec : Nat
deriving DecidableEq

/-- The host-side `LStat` record populated by lstat.c (fields declared in
`jgit_lstat_OnLoad`, lines 75-88: nine 32-bit "I" fields and one 64-bit
"J" size field). -/
structure LStatRec where
  ctime : Nat
  mtime : Nat
  ctime_nsec : Nat
  mtime_nsec : Nat
  dev : Nat
  ino : Nat
  mode : Nat
  uid : Nat
  gid : Nat
  size : Nat
deriving DecidableEq

/-- The field assignments of lstat.c lines 113-129: `(jint)` casts on all
32-bit fields, `(jlong)` on the size; the nanosecond fields come from the
platform's `st_ctimensec`/`st_mtimensec` when `TIME_HAS_NS` is defined
(it is, line 46) and are zero otherwise (the `#else` branch). -/
def mkLStatRec (timeHasNs : Bool) (st : StatData) : LStatRec :=
  { ctime := jintCast st.st_ctime
    mtime := jintCast st.st_mtime
    ctime_nsec := if timeHasNs then jintCast st.st_ctimensec else 0
    mtime_nsec := if timeHasNs then jintCast st.st_mtimensec else 0
    dev := jintCast st.st_dev
    ino := jintCast st.st_ino
    mode := jintCast st.st_mode
    uid := jintCast st.st_uid
    gid := jintCast st.st_gid
    size := jlongCast st.st_size }

/-- OS and runtime outcomes for one `lstatImpl` call. -/
structure LstatOracle where
  utfOk : Bool
  statRes : Except Nat StatData
  allocObjOk : Bool
  timeHasNs : Bool

/-- Result of `lstatImpl`: returned record, pending exception, and whether
the marshaled path chars were released. -/
structure LstatOut where
  res : Option LStatRec
  err : Option RaisedError
  pathReleased : Bool
deriving DecidableEq

/-- The inline errno switch of lstat.c lines 131-161: same classification
as `jgit_ThrowErrno` but the generic class is `LStatException`. -/
def lstatErrnoRaise (e : Nat) (path : Option String) : RaisedError :=
  if e = EACCES then ⟨accessDeniedCls, path⟩
  else if e = ENOENT then ⟨noSuchFileCls, path⟩
  else if e = ENOTDIR then ⟨notDirectoryCls, path⟩
  else ⟨lstatExceptionCls, some (strerror e)⟩

/-- lstat.c `Java_org_eclipse_jgit_util_fs_FSAccessNative_lstatImpl`
(lines 99-166).  If `GetStringUTFChars` fails it returns NULL with a
pending OutOfMemoryError and the code passes a NULL path to `lstat`,
which fails with EFAULT; the subsequent `ThrowNew` replaces the pending
exception.  On stat success, `AllocObject` failure leaves the JVM's
OutOfMemoryError pending and returns NULL; otherwise every field is set
as in `mkLStatRec`.  `ReleaseStringUTFChars` runs on every exit path. -/
def lstatImpl (o : LstatOracle) (path : String) : LstatOut :=
  let p : Option String := if o.utfOk then some path else none
  match (if o.utfOk then o.statRes else .error EFAULT) with
  | .ok st =>
    if !o.allocObjOk then ⟨none, some jgit_ThrowOutOfMemory, true⟩
    else ⟨some (mkLStatRec o.timeHasNs st), none, true⟩
  | .error e => ⟨none, some (lstatErrnoRaise e p), true⟩

/-- A `struct dirent` as the enumerator reads it: the NUL-terminated name
and the `d_type` code. -/
structure Dirent where
  d_name : String
  d_type : Nat
deriving DecidableEq

/-- list.c `dtype` (lines 70-79): classify `d_type` into the stable codes
1 = directory, 2 = regular, 3 = symlink, 0 = unknown/anything else. -/
def dtype (e : Dirent) : Nat :=
  if e.d_type = DT_DIR then 1
  else if e.d_type = DT_REG then 2
  else if e.d_type = DT_LNK then 3
  else 0

/-- The dot-entry test of list.c lines 137-142: `d_name[0] == '.'` and
then either `d_name[1] == 0` (the name is ".") or `d_name[1] == '.'` and
`d_name[2] == 0` (the name is "..").  On the NUL-terminated name, an
index holding NUL corresponds to the end of the char list. -/
def isDotEntry (n : String) : Bool :=
  match n.data with
  | [] => false
  | c1 :: t1 =>
    if c1 = '.' then
      match t1 with
      | [] => true
      | c2 :: t2 => if c2 = '.' then t2.isEmpty else false
    else false

/-- The host `DirEnt` result object (fields declared in
`jgit_list_OnLoad`, list.c lines 59-64). -/
structure DirEnt where
  name : String
  type : Nat
deriving DecidableEq

/-- A JNI object array of capacity `n` is a list of `n` slots, each
holding NULL (`none`) or an element. -/
def newObjectArray (n : Nat) : List (Option DirEnt) := List.replicate n none

/-- list.c `resize_array` (lines 81-96): allocate a fresh array of
`new_cap` NULL slots, copy the first `live_cnt` elements of `src` into
it, and drop `src`. -/
def resize_array (src : List (Option DirEnt)) (new_cap live_cnt : Nat) :
    List (Option DirEnt) :=
  (List.range new_cap).map (fun i => if i < live_cnt then src.getD i none else none)

/-- OS and runtime outcomes for one `listNative` call.  `jniAllocOk i` is
the outcome of the i-th JNI allocation attempt of the call (object
arrays, name strings, `DirEnt` objects, in program order).  `entries` are
the dirents yielded by successive `readdir_r` calls; afterwards the
stream either ends cleanly or (`termErr`) `readdir_r` returns a nonzero
status. -/
structure ListOracle where
  gsn : GsnOracle
  errno0 : Nat
  entryMallocOk : Bool
  openRes : Option Nat
  entries : List Dirent
  termErr : Bool
  jniAllocOk : Nat → Bool

/-- Result of `listNative`: the returned array, the pending exception,
and leak flags (true would mean the directory handle / path buffer /
entry buffer was still held at return). -/
structure ListOut where
  res : Option (List (Option DirEnt))
  err : Option RaisedError
  dirLeaked : Bool
  pathLeaked : Bool
  entryLeaked : Bool
deriving DecidableEq

/-- The enumeration loop of list.c lines 125-165, processing the dirent
stream with state (array, capacity, live count, next JNI allocation
index).  Each failure path reaches the `fail:` label, whose
`jgit_ThrowErrno` call replaces whatever exception the JVM left pending
(in particular the OutOfMemoryError of a failed growth allocation). -/
def listLoop (alloc : Nat → Bool) (errno : Nat) (p : String) :
    List Dirent → List (Option DirEnt) → Nat → Nat → Nat →
    Except RaisedError (List (Option DirEnt) × Nat × Nat × Nat)
  | [], res, cap, cnt, aIdx => .ok (res, cap, cnt, aIdx)
  | e :: rest, res, cap, cnt, aIdx =>
    if isDotEntry e.d_name then listLoop alloc errno p rest res cap cnt aIdx
    else if cnt = cap then
      if !alloc aIdx then .error (jgit_ThrowErrno errno (some p))
      else if !alloc (aIdx + 1) then .error (jgit_ThrowErrno errno (some p))
      else if !alloc (aIdx + 2) then .error (jgit_ThrowErrno errno (some p))
      else listLoop alloc errno p rest
        ((resize_array res (2 * cap) cnt).set cnt (some ⟨e.d_name, dtype e⟩))
        (2 * cap) (cnt + 1) (aIdx + 3)
    else
      if !alloc aIdx then .error (jgit_ThrowErrno errno (some p))
      else if !alloc (aIdx + 1) then .error (jgit_ThrowErrno errno (some p))
      else listLoop alloc errno p rest (res.set cnt (some ⟨e.d_name, dtype e⟩))
        cap (cnt + 1) (aIdx + 2)

/-- list.c `Java_org_eclipse_jgit_util_fs_FileAccessNative_listNative`
(lines 98-184): marshal the path, allocate the reusable entry buffer,
allocate the initial 16-slot array, open the directory, run the loop,
then close/free and shrink to the live count when it differs from the
capacity.  A failed shrink allocation returns NULL with the JVM's
OutOfMemoryError pending (the code returns without reaching `fail:`). -/
def listNative (o : ListOracle) (path : String) : ListOut :=
  let g := jgit_GetStringNative o.gsn o.errno0 path
  match g.res with
  | none => ⟨none, some (jgit_ThrowErrno g.errnoAfter none), false, false, false⟩
  | some p =>
    if !o.entryMallocOk then
      ⟨none, some (jgit_ThrowErrno ENOMEM (some p)), false, false, false⟩
    else if !o.jniAllocOk 0 then
      ⟨none, some (jgit_ThrowErrno o.errno0 (some p)), false, false, false⟩
    else
      match o.openRes with
      | some e => ⟨none, some (jgit_ThrowErrno e (some p)), false, false, false⟩
      | none =>
        match listLoop o.jniAllocOk o.errno0 p o.entries (newObjectArray 16) 16 0 1 with
        | .error err => ⟨none, some err, false, false, false⟩
        | .ok (res, cap, cnt, aIdx) =>
          if o.termErr then
            ⟨none, some (jgit_ThrowErrno o.errno0 (some p)), false, false, false⟩
          else if cnt ≠ cap then
            if !o.jniAllocOk aIdx then
              ⟨none, some jgit_ThrowOutOfMemory, false, false, false⟩
            else ⟨some (resize_array res cnt cnt), none, false, false, false⟩
          else ⟨some res, none, false, false, false⟩

/-- The fixed stack buffer size of symlink.c line 55 (`char small_buf[128]`). -/
def smallBufSz : Nat := 128

/-- OS and runtime outcomes for one `readlinkImp` call.  The buffer sizes
attempted by the loop strictly increase, so keying the oracle by the
buffer size loses no generality: `ret sz` is the `readlink` return value
for the attempt with buffer size `sz`, `data sz` the buffer contents
after that attempt (one `Char` per byte), `errnoAt sz` the errno after a
failed attempt, `mallocOk sz` the outcome of `malloc sz`. -/
structure RlOracle where
  gsn : GsnOracle
  errno0 : Nat
  ret : Nat → Int
  data : Nat → List Char
  errnoAt : Nat → Nat
  mallocOk : Nat → Bool
  newStrOk : Bool

/-- Resource trace of a `readlinkImp` call: the buffer sizes passed to
successive `readlink` attempts, the heap buffers still allocated at
return, and the largest number of heap buffers ever simultaneously
allocated. -/
structure RlTrace where
  sizes : List Nat
  live : List Nat
  maxLive : Nat
deriving DecidableEq

/-- Outcome of the read loop: a definite result (returned byte string or
pending exception), or fuel exhaustion of the model (shown unreachable). -/
inductive RlRes where
  | out (res : Option (List Char)) (err : Option RaisedError)
  | exhausted
deriving DecidableEq

/-- Free the heap buffer (if any) on the way out, as the `done:` label of
symlink.c lines 95-98 does. -/
def rlFinal (heap : Option Nat) (tr : RlTrace) : RlTrace :=
  match heap with
  | some b => { tr with live := tr.live.erase b }
  | none => tr

/-- The retry loop of symlink.c lines 64-93 (`try_read`).  `heap` is the
size of the currently live heap buffer (`none` while `buf_ptr` is the
stack buffer).  A read that fills the buffer exactly doubles the size
with `size_t` wraparound checked first (`d2 < buf_sz` raises
OutOfMemory), frees the previous heap buffer, and allocates the doubled
one; a negative read raises via `jgit_ThrowErrno`; otherwise
`jgit_NewNativeString` builds the result from exactly the first `n`
buffer bytes. -/
def rlLoop (o : RlOracle) (p : String) :
    Nat → Nat → Option Nat → RlTrace → RlRes × RlTrace
  | 0, _, heap, tr => (.exhausted, rlFinal heap tr)
  | fuel + 1, sz, heap, tr =>
    let tr1 := { tr with sizes := tr.sizes ++ [sz] }
    let n := o.ret sz
    if n = (sz : Int) then
      let d2 := (sz + sz) % two64
      if d2 < sz then (.out none (some jgit_ThrowOutOfMemory), rlFinal heap tr1)
      else
        let tr2 := rlFinal heap tr1
        if !o.mallocOk d2 then (.out none (some jgit_ThrowOutOfMemory), tr2)
        else
          let tr3 := { tr2 with
            live := tr2.live ++ [d2]
            maxLive := max tr2.maxLive (tr2.live.length + 1) }
          rlLoop o p fuel d2 (some d2) tr3
    else if n < 0 then
      (.out none (some (jgit_ThrowErrno (o.errnoAt sz) (some p))), rlFinal heap tr1)
    else
      let bytes := (o.data sz).take n.toNat
      if o.newStrOk then (.out (some bytes) none, rlFinal heap tr1)
      else (.out none (some jgit_ThrowOutOfMemory), rlFinal heap tr1)

/-- Fuel bound for `rlLoop`; shown sufficient for every oracle (the sizes
double from 128 and the wraparound check fires at the latest when the
size reaches `2^63`, so at most 57 reads happen). -/
def rlFuel : Nat := 64

/-- symlink.c `Java_org_eclipse_jgit_util_fs_FileAccessNative_readlinkImp`
(lines 50-100): marshal the path (a failure returns NULL with the
marshaler's pending exception), then run the retry loop starting on the
128-byte stack buffer. -/
def readlinkImp (o : RlOracle) (path : String) : RlRes × RlTrace :=
  let g := jgit_GetStringNative o.gsn o.errno0 path
  match g.res with
  | none => (.out none g.pending, ⟨[], [], 0⟩)
  | some p => rlLoop o p rlFuel smallBufSz none ⟨[], [], 0⟩

/-- The bytes of a C string: everything before the first NUL byte.
`symlink(2)` stores exactly these bytes as the link content. -/
def cBytes (s : String) : List Char := s.data.takeWhile (fun c => c.toNat ≠ 0)

/-- POSIX bound on a symlink target: `symlink(2)` fails with
ENAMETOOLONG for longer targets, so a successful creation implies the
target fits.  (OS limit, not repository code.) -/
def symlinkTargetMax : Nat := 4095

/-- OS and runtime outcomes for one `symlinkImp` call. -/
structure SymOracle where
  gsnPath : GsnOracle
  gsnTarget : GsnOracle
  errno0 : Nat
  linkErr : Option Nat

/-- Result of `symlinkImp`: the filesystem after the call (paths mapped
to link contents), the pending exception, and whether the call ran to
its normal return with no throw. -/
structure SymOut where
  fs2 : String → Option (List Char)
  err : Option RaisedError
  completed : Bool

/-- symlink.c `Java_org_eclipse_jgit_util_fs_FileAccessNative_symlinkImp`
(lines 102-123): marshal both strings (either failure returns with the
marshaler's pending exception and no filesystem effect), issue
`symlink(target_str, path_str)`, raise via `jgit_ThrowErrno` with the
path as context on failure, and free both buffers.  The syscall succeeds
only when the oracle allows it and the target fits the OS bound. -/
def symlinkImp (o : SymOracle) (fs : String → Option (List Char))
    (path target : String) : SymOut :=
  let g1 := jgit_GetStringNative o.gsnPath o.errno0 path
  match g1.res with
  | none => ⟨fs, g1.pending, false⟩
  | some p =>
    let g2 := jgit_GetStringNative o.gsnTarget g1.errnoAfter target
    match g2.res with
    | none => ⟨fs, g2.pending, false⟩
    | some t =>
      if o.linkErr = none ∧ (cBytes t).length ≤ symlinkTargetMax then
        ⟨fun q => if q = p then some (cBytes t) else fs q, none, true⟩
      else
        let e := match o.linkErr with
          | some e => e
          | none => ENAMETOOLONG
        ⟨fs, some (jgit_ThrowErrno e (some p)), false⟩

/-- Buffer contents after a `readlink` against a link with content `c`
using a buffer of `sz` bytes: the kernel writes `min c.length sz` bytes,
the rest of the buffer is unspecified (modelled as NUL). -/
def fsBuf (c : List Char) (sz : Nat) : List Char :=
  c.take sz ++ List.replicate (sz - min c.length sz) (Char.ofNat 0)

/-- The readlink oracle realized by an actual filesystem: `content` is
the link content at the queried path (`none` when the path does not name
a symlink, making every read fail with errno `e`), and every allocation
succeeds. -/
def fsRlOracle (g : GsnOracle) (errno0 : Nat) (content : Option (List Char))
    (e : Nat) : RlOracle :=
  { gsn := g
    errno0 := errno0
    ret := fun sz =>
      match content with
      | none => -1
      | some c => ((min c.length sz : Nat) : Int)
    data := fun sz =>
      match content with
      | none => List.replicate sz (Char.ofNat 0)
      | some c => fsBuf c sz
    errnoAt := fun _ => e
    mallocOk := fun _ => true
    newStrOk := true }

/-- A resolution request made during registry load: a class lookup
(`FindClass`), a method lookup (`GetMethodID`), or a field lookup
(`GetFieldID`), as issued by the `JGIT_CLASS` / `JGIT_METHOD` /
`JGIT_GET_FIELD` macros of libjgit.h lines 49-92. -/
inductive ResolveReq where
  | cls (name : String)
  | mth (cls name sig : String)
  | fld (cls name sig : String)
deriving DecidableEq

/-- Host-runtime outcomes of resolution requests. -/
structure ResolveOracle where
  clsOk : String → Bool
  mthOk : String → String → String → Bool
  fldOk : String → String → String → Bool

/-- Whether the host resolves a given request. -/
def resolveOk (o : ResolveOracle) : ResolveReq → Bool
  | .cls n => o.clsOk n
  | .mth c n s => o.mthOk c n s
  | .fld c n s => o.fldOk c n s

/-- The resolutions issued by `jgit_util_OnLoad` (util.c lines 61-71), in
program order. -/
def utilReqs : List ResolveReq :=
  [.cls accessDeniedCls, .cls noSuchFileCls, .cls notDirectoryCls,
   .cls nativeExceptionCls, .cls outOfMemoryCls,
   .cls ("java/lang/String"), .mth ("java/lang/String") ("getBytes") ("()[B")]

/-- The resolutions issued by `jgit_lstat_OnLoad` (lstat.c lines 75-88),
in program order.  The `JGIT_INIT_CLASS`/`JGIT_INIT_FIELD` macros it uses
are absent from src; modelled from the spec: each resolves one handle
and a failure makes the whole load fail. -/
def lstatReqs : List ResolveReq :=
  [.cls ("org/eclipse/jgit/util/fs/LStat"),
   .fld ("org/eclipse/jgit/util/fs/LStat") ("ctime") ("I"),
   .fld ("org/eclipse/jgit/util/fs/LStat") ("mtime") ("I"),
   .fld ("org/eclipse/jgit/util/fs/LStat") ("ctime_nsec") ("I"),
   .fld ("org/eclipse/jgit/util/fs/LStat") ("mtime_nsec") ("I"),
   .fld ("org/eclipse/jgit/util/fs/LStat") ("dev") ("I"),
   .fld ("org/eclipse/jgit/util/fs/LStat") ("ino") ("I"),
   .fld ("org/eclipse/jgit/util/fs/LStat") ("mode") ("I"),
   .fld ("org/eclipse/jgit/util/fs/LStat") ("uid") ("I"),
   .fld ("org/eclipse/jgit/util/fs/LStat") ("gid") ("I"),
   .fld ("org/eclipse/jgit/util/fs/LStat") ("size") ("J")]

/-- The resolutions issued by `jgit_list_OnLoad` (list.c lines 59-64), in
program order.  The signature string of the `String`-typed `name` field
comes from the spec's data model (the `JGIT_FIELD_String` expansion is
absent from src). -/
def listReqs : List ResolveReq :=
  [.cls ("org/eclipse/jgit/util/fs/DirEnt"),
   .fld ("org/eclipse/jgit/util/fs/DirEnt") ("name") ("Ljava/lang/String;"),
   .fld ("org/eclipse/jgit/util/fs/DirEnt") ("type") ("I")]

/-- Modelled from the spec: the module `onLoad` hook (absent from src;
only the per-component `OnLoad` functions are) runs every component's
registry load and fails as a whole if any component load fails
(spec sections 4.1 and 6). -/
def jgitDeclaredReqs : List ResolveReq := utilReqs ++ lstatReqs ++ listReqs

/-- Sequential resolution with early exit, as each `OnLoad` body performs
it: every macro either stores its handle or returns -1 at once.  Returns
whether every request succeeded, together with the trace of requests
actually issued. -/
def loadSeq (o : ResolveOracle) :
    List ResolveReq → List ResolveReq → Bool × List ResolveReq
  | [], tr => (true, tr)
  | r :: rest, tr =>
    if resolveOk o r then loadSeq o rest (tr ++ [r])
    else (false, tr ++ [r])

/-- Registry load: on success the registry holds every declared handle
(modelled by the request it answered); on failure there is no registry
value at all, so no partially-resolved registry can flow to any later
operation. -/
def loadRegistry (o : ResolveOracle) :
    Except Unit (List ResolveReq) × List ResolveReq :=
  let s := loadSeq o jgitDeclaredReqs []
  (if s.1 then .ok jgitDeclaredReqs else .error (), s.2)

/-- A directory stream of 17 regular-file entries: processing the 17th
entry finds the live count equal to the capacity 16 and attempts the
growth allocation. -/
def c3Entries : List Dirent := List.replicate 17 ⟨"f", DT_REG⟩

/-- The C3 failing input: everything succeeds except the 33rd JNI
allocation of the call, which is exactly the `NewObjectArray` of the
capacity-doubling `resize_array` (index 0 is the initial array, each of
the first 16 entries consumes two allocations).  The stale errno is 0. -/
def c3Oracle : ListOracle :=
  { gsn := gsnOk, errno0 := 0, entryMallocOk := true, openRes := none,
    entries := c3Entries, termErr := false,
    jniAllocOk := fun i => decide (i < 33) }

/-- The spec section 8 example directory: files `a`, `b`, subdirectory
`c`, symlink `e`, the two dot entries, and a dotfile `.git` that must be
kept. -/
def c4Oracle : ListOracle :=
  { gsn := gsnOk, errno0 := 0, entryMallocOk := true, openRes := none,
    entries := [⟨"a", DT_REG⟩, ⟨".", DT_DIR⟩, ⟨"b", DT_REG⟩, ⟨"..", DT_DIR⟩,
      ⟨"c", DT_DIR⟩, ⟨"e", DT_LNK⟩, ⟨".git", DT_REG⟩],
    termErr := false, jniAllocOk := fun _ => true }

/-- The collection `listNative` returns for `c4Oracle`. -/
def c4Arr : List (Option DirEnt) :=
  [some ⟨"a", 2⟩, some ⟨"b", 2⟩, some ⟨"c", 1⟩, some ⟨"e", 3⟩, some ⟨".git", 2⟩]

/-- The all-success resolution oracle. -/
def resolveAllOk : ResolveOracle :=
  ⟨fun _ => true, fun _ _ _ => true, fun _ _ _ => true⟩

/-! ### Helper lemmas -/

theorem isDotEntry_iff (n : String) : isDotEntry n = true ↔ (n = "." ∨ n = "..") := by
  rcases n with ⟨l⟩
  simp only [String.ext_iff]
  show isDotEntry ⟨l⟩ = true ↔ (l = ['.'] ∨ l = ['.', '.'])
  rcases l with _ | ⟨c1, _ | ⟨c2, t2⟩⟩ <;> simp [isDotEntry]

theorem set_append_length {α : Type} (l1 l2 : List α) (v : α) :
    (l1 ++ l2).set l1.length v = l1 ++ l2.set 0 v := by
  induction l1 with
  | nil => rfl
  | cons a t ih => simp [List.set, ih]

theorem resize_array_eq (acc : List DirEnt) (rest : List (Option DirEnt)) (n : Nat)
    (h : acc.length ≤ n) :
    resize_array (acc.map some ++ rest) n acc.length =
      acc.map some ++ List.replicate (n - acc.length) none := by
  apply List.ext_getElem
  · simp [resize_array]; omega
  · intro i h1 h2
    simp only [resize_array, List.getElem_map, List.getElem_range,
      List.length_map, List.length_range] at h1 ⊢
    by_cases hik : i < acc.length
    · rw [if_pos hik, List.getD_append _ _ _ _ (by simpa using hik),
        List.getD_eq_getElem _ _ (by simpa using hik),
        List.getElem_append_left (by simpa using hik)]
    · rw [if_neg hik, List.getElem_append_right (by simpa using hik)]
      simp

theorem set_map_append (acc : List DirEnt) (l2 : List (Option DirEnt)) (v : Option DirEnt) :
    (acc.map some ++ l2).set acc.length v = acc.map some ++ l2.set 0 v := by
  have h := set_append_length (acc.map some) l2 v
  simpa using h

theorem append_set_replicate (acc : List DirEnt) (m : Nat) (hm : 0 < m) (d : DirEnt) :
    (acc.map some ++ List.replicate m (none : Option DirEnt)).set acc.length (some d)
      = (acc ++ [d]).map some ++ List.replicate (m - 1) none := by
  obtain ⟨m', rfl⟩ : ∃ m', m = m' + 1 := ⟨m - 1, by omega⟩
  rw [set_map_append]
  simp [List.replicate_succ]

theorem listLoop_ok (alloc : Nat → Bool) (errno : Nat) (p : String) :
    ∀ (ents : List Dirent) (acc : List DirEnt) (cap aIdx : Nat)
      (out : List (Option DirEnt) × Nat × Nat × Nat),
    0 < cap → acc.length ≤ cap →
    listLoop alloc errno p ents
      (acc.map some ++ List.replicate (cap - acc.length) none) cap acc.length aIdx
      = .ok out →
    ∃ acc2 cap2 aIdx2,
      out = (acc2.map some ++ List.replicate (cap2 - acc2.length) none,
             cap2, acc2.length, aIdx2)
      ∧ acc2 = acc ++ (ents.filter (fun e => !isDotEntry e.d_name)).map
          (fun e => ⟨e.d_name, dtype e⟩)
      ∧ 0 < cap2 ∧ acc2.length ≤ cap2 := by
  intro ents
  induction ents with
  | nil =>
    intro acc cap aIdx out hcap hlen h
    refine ⟨acc, cap, aIdx, ?_, by simp, hcap, hlen⟩
    simpa [listLoop] using h.symm
  | cons e rest ih =>
    intro acc cap aIdx out hcap hlen h
    simp only [listLoop] at h
    split at h
    · rename_i hdot
      obtain ⟨acc2, cap2, aIdx2, h1, h2, h3, h4⟩ := ih acc cap aIdx out hcap hlen h
      refine ⟨acc2, cap2, aIdx2, h1, ?_, h3, h4⟩
      simp [List.filter_cons, hdot, h2]
    · rename_i hdot
      split at h
      · rename_i hfull
        split at h
        · simp at h
        · split at h
          · simp at h
          · split at h
            · simp at h
            · rw [resize_array_eq acc _ (2 * cap) (by omega),
                append_set_replicate acc (2 * cap - acc.length) (by omega)
                  ⟨e.d_name, dtype e⟩] at h
              have hld : (acc ++ [(⟨e.d_name, dtype e⟩ : DirEnt)]).length
                  = acc.length + 1 := by simp
              rw [show 2 * cap - acc.length - 1
                    = 2 * cap - (acc ++ [(⟨e.d_name, dtype e⟩ : DirEnt)]).length by omega,
                show acc.length + 1 = (acc ++ [(⟨e.d_name, dtype e⟩ : DirEnt)]).length
                  from hld.symm] at h
              obtain ⟨acc2, cap2, aIdx2, h1, h2, h3, h4⟩ :=
                ih (acc ++ [⟨e.d_name, dtype e⟩]) (2 * cap) (aIdx + 3) out
                  (by omega) (by rw [hld]; omega) h
              refine ⟨acc2, cap2, aIdx2, h1, ?_, h3, h4⟩
              rw [h2]
              simp [List.filter_cons, hdot]
      · rename_i hfull
        split at h
        · simp at h
        · split at h
          · simp at h
          · rw [append_set_replicate acc (cap - acc.length) (by omega)
                  ⟨e.d_name, dtype e⟩] at h
            have hld : (acc ++ [(⟨e.d_name, dtype e⟩ : DirEnt)]).length
                = acc.length + 1 := by simp
            rw [show cap - acc.length - 1
                  = cap - (acc ++ [(⟨e.d_name, dtype e⟩ : DirEnt)]).length by omega,
              show acc.length + 1 = (acc ++ [(⟨e.d_name, dtype e⟩ : DirEnt)]).length
                from hld.symm] at h
            obtain ⟨acc2, cap2, aIdx2, h1, h2, h3, h4⟩ :=
              ih (acc ++ [⟨e.d_name, dtype e⟩]) cap (aIdx + 2) out
                hcap (by rw [hld]; omega) h
            refine ⟨acc2, cap2, aIdx2, h1, ?_, h3, h4⟩
            rw [h2]
            simp [List.filter_cons, hdot]

theorem gsn_isSome_iff (o : GsnOracle) (e0 : Nat) (s : String) :
    (jgit_GetStringNative o e0 s).res.isSome
      ↔ (jgit_GetStringNative o e0 s).pending = none := by
  rcases o with ⟨cap, err, mal⟩
  cases cap <;> cases mal <;> cases err <;> simp [jgit_GetStringNative]

theorem listNative_xor (o : ListOracle) (p : String) :
    (listNative o p).res.isSome ↔ (listNative o p).err = none := by
  suffices hs : ∀ out, listNative o p = out → (out.res.isSome ↔ out.err = none) from
    hs _ rfl
  intro out h
  simp only [listNative] at h
  repeat' split at h
  all_goals subst h; simp

theorem newObjectArray_shape :
    newObjectArray 16 = (([] : List DirEnt).map some)
      ++ List.replicate (16 - ([] : List DirEnt).length) none := rfl

theorem listNative_success (o : ListOracle) (p : String) (arr : List (Option DirEnt))
    (h : (listNative o p).res = some arr) :
    arr = (o.entries.filter (fun e => !isDotEntry e.d_name)).map
      (fun e => some (⟨e.d_name, dtype e⟩ : DirEnt)) := by
  have hmain : ∀ out, listNative o p = out → out.res = some arr →
      arr = (o.entries.filter (fun e => !isDotEntry e.d_name)).map
        (fun e => some (⟨e.d_name, dtype e⟩ : DirEnt)) := by
    intro out hout harr
    simp only [listNative] at hout
    repeat' split at hout
    all_goals (subst hout; try simp at harr)
    · rename_i res cap cnt aIdx heq hterm hne halloc
      obtain ⟨acc2, cap2, aIdx2, h1, h2, h3, h4⟩ :=
        listLoop_ok o.jniAllocOk o.errno0 _ o.entries [] 16 1 (res, cap, cnt, aIdx)
          (by norm_num) (by simp) heq
      simp only [Prod.mk.injEq] at h1
      obtain ⟨hres, hcap, hcnt, hai⟩ := h1
      rw [← harr, hres, hcnt, resize_array_eq acc2 _ acc2.length (le_refl _)]
      simp [h2, List.map_map, Function.comp]
    · rename_i res cap cnt aIdx heq hterm hne
      obtain ⟨acc2, cap2, aIdx2, h1, h2, h3, h4⟩ :=
        listLoop_ok o.jniAllocOk o.errno0 _ o.entries [] 16 1 (res, cap, cnt, aIdx)
          (by norm_num) (by simp) heq
      simp only [Prod.mk.injEq] at h1
      obtain ⟨hres, hcap, hcnt, hai⟩ := h1
      have hcc : cnt = cap := by omega
      rw [← harr, hres]
      have hz : cap2 - acc2.length = 0 := by omega
      rw [hz]
      simp [h2, List.map_map, Function.comp]
  exact hmain _ rfl h

theorem rlFinal_sizes (heap : Option Nat) (tr : RlTrace) :
    (rlFinal heap tr).sizes = tr.sizes := by
  cases heap <;> rfl

theorem rlFinal_maxLive (heap : Option Nat) (tr : RlTrace) :
    (rlFinal heap tr).maxLive = tr.maxLive := by
  cases heap <;> rfl

theorem rlFinal_live (heap : Option Nat) (tr : RlTrace) (h : tr.live = heap.toList) :
    (rlFinal heap tr).live = [] := by
  cases heap <;> simp [rlFinal, h]

theorem rlLoop_xor (o : RlOracle) (p : String) :
    ∀ (fuel sz : Nat) (heap : Option Nat) (tr : RlTrace) (r : Option (List Char))
      (e : Option RaisedError) (tr' : RlTrace),
    rlLoop o p fuel sz heap tr = (.out r e, tr') → (r.isSome ↔ e = none) := by
  intro fuel
  induction fuel with
  | zero => intro sz heap tr r e tr' h; simp [rlLoop] at h
  | succ f ih =>
    intro sz heap tr r e tr' h
    simp only [rlLoop] at h
    repeat' split at h
    all_goals first
      | exact ih _ _ _ _ _ _ h
      | (simp only [Prod.mk.injEq, RlRes.out.injEq] at h
         obtain ⟨⟨h1, h2⟩, h3⟩ := h
         subst h1; subst h2; simp)

theorem rlLoop_total (o : RlOracle) (p : String) :
    ∀ (fuel sz : Nat) (heap : Option Nat) (tr : RlTrace),
    0 < sz → sz < two64 → two64 ≤ sz * 2 ^ fuel →
    ∃ r e tr', rlLoop o p fuel sz heap tr = (.out r e, tr') := by
  intro fuel
  induction fuel with
  | zero =>
    intro sz heap tr h1 h2 h3
    simp only [pow_zero, Nat.mul_one] at h3
    omega
  | succ f ih =>
    intro sz heap tr h1 h2 h3
    simp only [rlLoop]
    split
    · split
      · exact ⟨_, _, _, rfl⟩
      · rename_i hn hlt
        have hw : sz + sz < two64 := by
          by_contra hge
          push_neg at hge
          have hm : (sz + sz) % two64 = sz + sz - two64 := by
            rw [Nat.mod_eq_sub_mod hge, Nat.mod_eq_of_lt (by omega)]
          omega
        have hd2 : (sz + sz) % two64 = sz + sz := Nat.mod_eq_of_lt hw
        rw [hd2]
        split
        · exact ⟨_, _, _, rfl⟩
        · refine ih (sz + sz) (some (sz + sz)) _ (by omega) hw ?_
          have hr : sz * 2 ^ (f + 1) = (sz + sz) * 2 ^ f := by ring
          omega
    · split
      · exact ⟨_, _, _, rfl⟩
      · split
        · exact ⟨_, _, _, rfl⟩
        · exact ⟨_, _, _, rfl⟩

theorem rlLoop_len (o : RlOracle) (p : String) :
    ∀ (fuel sz : Nat) (heap : Option Nat) (tr : RlTrace),
    ((rlLoop o p fuel sz heap tr).2).sizes.length ≤ tr.sizes.length + fuel := by
  intro fuel
  induction fuel with
  | zero => intro sz heap tr; simp [rlLoop, rlFinal_sizes]
  | succ f ih =>
    intro sz heap tr
    simp only [rlLoop]
    split
    · split
      · simp [rlFinal_sizes]
      · split
        · simp [rlFinal_sizes]
        · refine le_trans (ih _ _ _) ?_
          simp [rlFinal_sizes]
          omega
    · split
      · simp [rlFinal_sizes]
      · split
        · simp [rlFinal_sizes]
        · simp [rlFinal_sizes]

theorem rlLoop_nowrap (sz : Nat) (h2 : sz < two64) (hge : ¬(sz + sz) % two64 < sz) :
    sz + sz < two64 ∧ (sz + sz) % two64 = sz + sz := by
  have hw : sz + sz < two64 := by
    by_contra hx
    push_neg at hx
    have hm : (sz + sz) % two64 = sz + sz - two64 := by
      rw [Nat.mod_eq_sub_mod hx, Nat.mod_eq_of_lt (by omega)]
    omega
  exact ⟨hw, Nat.mod_eq_of_lt hw⟩

theorem rlLoop_sizes (o : RlOracle) (p : String) :
    ∀ (fuel sz k : Nat) (heap : Option Nat) (tr : RlTrace),
    sz < two64 →
    tr.sizes = (List.range k).map (fun i => smallBufSz * 2 ^ i) →
    sz = smallBufSz * 2 ^ k →
    ∃ m, ((rlLoop o p fuel sz heap tr).2).sizes
        = (List.range m).map (fun i => smallBufSz * 2 ^ i) := by
  intro fuel
  induction fuel with
  | zero =>
    intro sz k heap tr hlt htr hsz
    exact ⟨k, by simpa [rlLoop, rlFinal_sizes] using htr⟩
  | succ f ih =>
    intro sz k heap tr hlt htr hsz
    have hchain : tr.sizes ++ [sz]
        = (List.range (k + 1)).map (fun i => smallBufSz * 2 ^ i) := by
      rw [List.range_succ, List.map_append, htr, hsz]
      simp
    simp only [rlLoop]
    split
    · split
      · exact ⟨k + 1, by simpa [rlFinal_sizes] using hchain⟩
      · rename_i hn hge
        obtain ⟨hlt2, hd2⟩ := rlLoop_nowrap sz hlt hge
        rw [hd2]
        split
        · exact ⟨k + 1, by simpa [rlFinal_sizes] using hchain⟩
        · exact ih (sz + sz) (k + 1) _ _ hlt2
            (by simpa [rlFinal_sizes] using hchain) (by rw [hsz]; ring)
    · split
      · exact ⟨k + 1, by simpa [rlFinal_sizes] using hchain⟩
      · split
        · exact ⟨k + 1, by simpa [rlFinal_sizes] using hchain⟩
        · exact ⟨k + 1, by simpa [rlFinal_sizes] using hchain⟩

theorem rlLoop_resources (o : RlOracle) (p : String) :
    ∀ (fuel sz : Nat) (heap : Option Nat) (tr : RlTrace),
    tr.live = heap.toList → tr.maxLive ≤ 1 →
    ((rlLoop o p fuel sz heap tr).2).live = []
      ∧ ((rlLoop o p fuel sz heap tr).2).maxLive ≤ 1 := by
  intro fuel
  induction fuel with
  | zero =>
    intro sz heap tr h hmax
    simp only [rlLoop]
    exact ⟨rlFinal_live _ _ h, by simpa [rlFinal_maxLive] using hmax⟩
  | succ f ih =>
    intro sz heap tr h hmax
    simp only [rlLoop]
    have h1 : (({ tr with sizes := tr.sizes ++ [sz] } : RlTrace)).live = heap.toList := h
    split
    · split
      · exact ⟨rlFinal_live _ _ h1, by simpa [rlFinal_maxLive] using hmax⟩
      · split
        · exact ⟨rlFinal_live _ _ h1, by simpa [rlFinal_maxLive] using hmax⟩
        · refine ih _ _ _ ?_ ?_
          · simp [rlFinal_live _ _ h1]
          · have h2 := rlFinal_live heap { tr with sizes := tr.sizes ++ [sz] } h1
            simp [h2, rlFinal_maxLive]
            omega
    · split
      · exact ⟨rlFinal_live _ _ h1, by simpa [rlFinal_maxLive] using hmax⟩
      · split
        · exact ⟨rlFinal_live _ _ h1, by simpa [rlFinal_maxLive] using hmax⟩
        · exact ⟨rlFinal_live _ _ h1, by simpa [rlFinal_maxLive] using hmax⟩

theorem rlLoop_success (o : RlOracle) (p : String)
    (hconf : ∀ s : Nat, o.ret s ≤ (s : Int))
    (hdata : ∀ s : Nat, (o.data s).length = s) :
    ∀ (fuel sz : Nat) (heap : Option Nat) (tr : RlTrace) (bs : List Char)
      (e : Option RaisedError) (tr' : RlTrace),
    rlLoop o p fuel sz heap tr = (.out (some bs) e, tr') →
    e = none ∧ ∃ s n : Nat, o.ret s = (n : Int) ∧ n < s ∧
      bs = (o.data s).take n ∧ bs.length = n := by
  intro fuel
  induction fuel with
  | zero => intro sz heap tr bs e tr' h; simp [rlLoop] at h
  | succ f ih =>
    intro sz heap tr bs e tr' h
    simp only [rlLoop] at h
    split at h
    · split at h
      · simp at h
      · split at h
        · simp at h
        · exact ih _ _ _ _ _ _ h
    · rename_i hn
      split at h
      · simp at h
      · rename_i hneg
        split at h
        · simp only [Prod.mk.injEq, RlRes.out.injEq, Option.some.injEq] at h
          obtain ⟨⟨h1, h2⟩, h3⟩ := h
          have hnn : (0 : Int) ≤ o.ret sz := by omega
          have hle := hconf sz
          have hlt : (o.ret sz).toNat < sz := by omega
          refine ⟨h2.symm, sz, (o.ret sz).toNat,
            (Int.toNat_of_nonneg hnn).symm, hlt, h1.symm, ?_⟩
          rw [← h1]
          simp [hdata]
          omega
        · simp at h

theorem rlLoop_exactfit (o : RlOracle) (p : String)
    (hret : ∀ s : Nat, o.ret s = (s : Int))
    (hmal : ∀ s : Nat, o.mallocOk s = true) :
    ∀ (fuel j : Nat) (heap : Option Nat) (tr : RlTrace),
    j ≤ 63 → 64 - j ≤ fuel →
    ∃ tr', rlLoop o p fuel (2 ^ j) heap tr
        = (.out none (some jgit_ThrowOutOfMemory), tr') := by
  intro fuel
  induction fuel with
  | zero =>
    intro j heap tr hj hf
    omega
  | succ f ih =>
    intro j heap tr hj hf
    simp only [rlLoop, hret, hmal, Bool.not_true, if_true]
    by_cases hj63 : j = 63
    · subst hj63
      have hsum : (2 : Nat) ^ 63 + 2 ^ 63 = 2 ^ 64 := by norm_num
      rw [hsum, show (2 : Nat) ^ 64 % two64 = 0 by simp [two64]]
      rw [if_pos (by positivity)]
      exact ⟨_, rfl⟩
    · have hlt : (2 : Nat) ^ (j + 1) < two64 := by
        have hx : (2 : Nat) ^ (j + 1) < 2 ^ 64 :=
          Nat.pow_lt_pow_right (by norm_num) (by omega)
        simpa [two64] using hx
      have hsum : (2 : Nat) ^ j + 2 ^ j = 2 ^ (j + 1) := by ring
      rw [hsum, Nat.mod_eq_of_lt hlt]
      rw [if_neg (by
        have hy : (2 : Nat) ^ j ≤ 2 ^ (j + 1) :=
          Nat.pow_le_pow_right (by norm_num) (by omega)
        omega)]
      rw [if_neg (by simp)]
      exact ih (j + 1) _ _ (by omega) (by omega)

theorem rlLoop_fs (g : GsnOracle) (e0 e : Nat) (c : List Char) (p : String)
    (hc : c.length < 2 ^ 63) :
    ∀ (fuel sz : Nat) (heap : Option Nat) (tr : RlTrace),
    0 < sz → sz < two64 → two64 ≤ sz * 2 ^ fuel →
    ∃ tr', rlLoop (fsRlOracle g e0 (some c) e) p fuel sz heap tr
        = (.out (some c) none, tr') := by
  intro fuel
  induction fuel with
  | zero =>
    intro sz heap tr h1 h2 h3
    simp only [pow_zero, Nat.mul_one] at h3
    omega
  | succ f ih =>
    intro sz heap tr h1 h2 h3
    simp only [rlLoop]
    by_cases hcs : c.length < sz
    · have hmin : min c.length sz = c.length := by omega
      rw [if_neg (by simp only [fsRlOracle]; intro hx; omega)]
      rw [if_neg (by simp only [fsRlOracle]; omega)]
      rw [if_pos (by simp [fsRlOracle])]
      have hbytes : ((fsRlOracle g e0 (some c) e).data sz).take
          ((fsRlOracle g e0 (some c) e).ret sz).toNat = c := by
        simp only [fsRlOracle, fsBuf, hmin, Int.toNat_natCast]
        rw [List.take_append_of_le_length (by simp; omega)]
        rw [List.take_take]
        simp [hmin]
      exact ⟨_, by rw [hbytes]⟩
    · push_neg at hcs
      have hmin : min c.length sz = sz := by omega
      rw [if_pos (by simp only [fsRlOracle, hmin])]
      have hw : sz + sz < two64 := by
        have : sz ≤ c.length := hcs
        have h63 : sz < 2 ^ 63 := by omega
        have : sz + sz < 2 ^ 64 := by omega
        simpa [two64] using this
      rw [Nat.mod_eq_of_lt hw]
      rw [if_neg (by omega)]
      rw [if_neg (by simp [fsRlOracle])]
      refine ih (sz + sz) _ _ (by omega) hw ?_
      have hr : sz * 2 ^ (f + 1) = (sz + sz) * 2 ^ f := by ring
      omega

theorem lstatImpl_xor (o : LstatOracle) (sp : String) :
    (lstatImpl o sp).res.isSome ↔ (lstatImpl o sp).err = none := by
  rcases o with ⟨u, st, a, ns⟩
  cases u <;> rcases st with e | stv <;> cases a <;> simp [lstatImpl]

theorem symlinkImp_xor (o : SymOracle) (fs : String → Option (List Char))
    (pa t : String) :
    ((symlinkImp o fs pa t).completed = true ↔ (symlinkImp o fs pa t).err = none) := by
  rcases o with ⟨g1, g2, e0, le⟩
  simp only [symlinkImp]
  rcases hg1 : (jgit_GetStringNative g1 e0 pa).res with _ | p1
  · have hx := gsn_isSome_iff g1 e0 pa
    rw [hg1] at hx
    simp only [Option.isSome_none, Bool.false_eq_true, false_iff] at hx
    simp [hx]
  · rcases hg2 : (jgit_GetStringNative g2
        (jgit_GetStringNative g1 e0 pa).errnoAfter t).res with _ | t1
    · have hx := gsn_isSome_iff g2 (jgit_GetStringNative g1 e0 pa).errnoAfter t
      rw [hg2] at hx
      simp only [Option.isSome_none, Bool.false_eq_true, false_iff] at hx
      simp [hx]
    · by_cases hcond : le = none ∧ (cBytes t1).length ≤ symlinkTargetMax
      · simp [hcond]
      · simp [hcond]

theorem cBytes_of_noNul (t : String) (h : ∀ c ∈ t.data, c.toNat ≠ 0) :
    cBytes t = t.data := by
  unfold cBytes
  exact List.takeWhile_eq_self_iff.mpr (by simpa using h)

theorem loadSeq_ok_iff (o : ResolveOracle) :
    ∀ (reqs tr : List ResolveReq),
    (loadSeq o reqs tr).1 = true ↔ ∀ r ∈ reqs, resolveOk o r = true := by
  intro reqs
  induction reqs with
  | nil => intro tr; simp [loadSeq]
  | cons r rest ih =>
    intro tr
    simp only [loadSeq]
    by_cases hr : resolveOk o r = true
    · rw [if_pos hr, ih]
      simp [hr]
    · rw [if_neg hr]
      simp [hr]

theorem loadSeq_trace_of_ok (o : ResolveOracle) :
    ∀ (reqs tr : List ResolveReq),
    (loadSeq o reqs tr).1 = true → (loadSeq o reqs tr).2 = tr ++ reqs := by
  intro reqs
  induction reqs with
  | nil => intro tr _; simp [loadSeq]
  | cons r rest ih =>
    intro tr h
    simp only [loadSeq] at h ⊢
    by_cases hr : resolveOk o r = true
    · rw [if_pos hr] at h ⊢
      rw [ih _ h]
      simp
    · rw [if_neg hr] at h
      simp at h

theorem fsBuf_length (c : List Char) (sz : Nat) : (fsBuf c sz).length = sz := by
  simp [fsBuf]
  omega

theorem fsRlOracle_conf (g : GsnOracle) (e0 e : Nat) (c : List Char) :
    (∀ s : Nat, (fsRlOracle g e0 (some c) e).ret s ≤ (s : Int))
    ∧ (∀ s : Nat, ((fsRlOracle g e0 (some c) e).data s).length = s) := by
  constructor
  · intro s
    simp only [fsRlOracle]
    omega
  · intro s
    simp only [fsRlOracle]
    exact fsBuf_length c s

/-! ### Claim theorems -/

/-- C1: every boundary operation (probe, list, readTarget, createLink), on
every input and under every OS/runtime behaviour, ends in exactly one of
two states: a structured result with no pending typed error, or no result
with exactly one pending typed error — never both and never neither. -/
theorem claim_C1_result_xor_error
    (lo : ListOracle) (lp : String) (so : LstatOracle) (sp : String)
    (ro : RlOracle) (rp : String) (sy : SymOracle)
    (fs : String → Option (List Char)) (cp ct : String) :
    ((listNative lo lp).res.isSome ↔ (listNative lo lp).err = none)
    ∧ ((lstatImpl so sp).res.isSome ↔ (lstatImpl so sp).err = none)
    ∧ (∃ r e tr, readlinkImp ro rp = (.out r e, tr) ∧ (r.isSome ↔ e = none))
    ∧ ((symlinkImp sy fs cp ct).completed = true
        ↔ (symlinkImp sy fs cp ct).err = none) := by
  refine ⟨listNative_xor lo lp, lstatImpl_xor so sp, ?_,
    symlinkImp_xor sy fs cp ct⟩
  rcases hg : (jgit_GetStringNative ro.gsn ro.errno0 rp).res with _ | p1
  · have hx := gsn_isSome_iff ro.gsn ro.errno0 rp
    rw [hg] at hx
    simp only [Option.isSome_none, Bool.false_eq_true, false_iff] at hx
    refine ⟨none, (jgit_GetStringNative ro.gsn ro.errno0 rp).pending, ⟨[], [], 0⟩,
      ?_, by simp [hx]⟩
    simp [readlinkImp, hg]
  · obtain ⟨r, e, tr, hout⟩ := rlLoop_total ro p1 rlFuel smallBufSz none ⟨[], [], 0⟩
      (by norm_num [smallBufSz]) (by norm_num [smallBufSz, two64])
      (by norm_num [smallBufSz, two64, rlFuel])
    refine ⟨r, e, tr, ?_, rlLoop_xor ro p1 _ _ _ _ _ _ _ hout⟩
    simp [readlinkImp, hg, hout]

/-- C2: when the link-aware stat fails with errno `e`, probe returns no
record, releases the marshaled path chars, and raises the error of the
Error Translator's mapping: AccessDenied/NoSuchFile/NotDirectory carrying
the original path for EACCES/ENOENT/ENOTDIR, and the generic OS failure
carrying the system error text for every other errno; the raised error
agrees with `jgit_ThrowErrno` in taxonomy kind and in message. -/
theorem claim_C2_probe_failure_translation (e : Nat) (sp : String) (a ns : Bool) :
    lstatImpl ⟨true, .error e, a, ns⟩ sp
      = ⟨none, some (lstatErrnoRaise e (some sp)), true⟩
    ∧ lstatErrnoRaise EACCES (some sp) = ⟨accessDeniedCls, some sp⟩
    ∧ lstatErrnoRaise ENOENT (some sp) = ⟨noSuchFileCls, some sp⟩
    ∧ lstatErrnoRaise ENOTDIR (some sp) = ⟨notDirectoryCls, some sp⟩
    ∧ errKindOf (lstatErrnoRaise e (some sp)).cls
        = errKindOf (jgit_ThrowErrno e (some sp)).cls
    ∧ (lstatErrnoRaise e (some sp)).msg = (jgit_ThrowErrno e (some sp)).msg := by
  refine ⟨rfl, rfl, rfl, rfl, ?_, ?_⟩
  · unfold lstatErrnoRaise jgit_ThrowErrno
    split_ifs <;>
      simp [errKindOf, accessDeniedCls, noSuchFileCls, notDirectoryCls,
        nativeExceptionCls, lstatExceptionCls, outOfMemoryCls]
  · unfold lstatErrnoRaise jgit_ThrowErrno
    split_ifs <;> rfl

/-- C8: on a successful probe the size field keeps the full 64-bit value,
every other numeric field is the syscall value modulo `2^32`, and the
nanosecond fields come from the platform nanosecond timestamps when
available and are zero otherwise. -/
theorem claim_C8_field_widths (st : StatData) (sp : String) (ns : Bool) :
    ∃ r, (lstatImpl ⟨true, .ok st, true, ns⟩ sp).res = some r
    ∧ r.size = st.st_size % two64
    ∧ (st.st_size < two64 → r.size = st.st_size)
    ∧ r.dev = st.st_dev % two32 ∧ r.ino = st.st_ino % two32
    ∧ r.mode = st.st_mode % two32 ∧ r.uid = st.st_uid % two32
    ∧ r.gid = st.st_gid % two32 ∧ r.ctime = st.st_ctime % two32
    ∧ r.mtime = st.st_mtime % two32
    ∧ r.ctime_nsec = (if ns = true then st.st_ctimensec % two32 else 0)
    ∧ r.mtime_nsec = (if ns = true then st.st_mtimensec % two32 else 0) := by
  refine ⟨mkLStatRec ns st, rfl, rfl, ?_, rfl, rfl, rfl, rfl, rfl, rfl, rfl,
    rfl, rfl⟩
  intro h
  simp [mkLStatRec, jlongCast, Nat.mod_eq_of_lt h]

/-- C8 witness: a probe with a size beyond 32 bits keeps it at full
width. -/
theorem claim_C8_witness :
    ∃ r, (lstatImpl ⟨true, .ok ⟨1, 2, 3, 4, 5, 2 ^ 40 + 7, 10, 11, 12, 13⟩,
      true, true⟩ "/x").res = some r ∧ r.size = 2 ^ 40 + 7 := by
  obtain ⟨r, h1, _, h3, _⟩ :=
    claim_C8_field_widths ⟨1, 2, 3, 4, 5, 2 ^ 40 + 7, 10, 11, 12, 13⟩ "/x" true
  exact ⟨r, h1, h3 (by norm_num [two64])⟩

/-- C3: evaluation at the failing input.  When the growth allocation for
the 17th entry fails, the JVM's own OutOfMemoryError is replaced by the
`fail:` label's `jgit_ThrowErrno` call at the stale errno (here 0), so
the operation aborts with the errno-mapped error — never the
allocation-failure error the spec requires: `jgit_ThrowErrno` cannot
produce the OutOfMemory class for any errno.  Cleanup of the directory
handle, path buffer, and entry buffer does happen, and no collection is
returned. -/
theorem claim_C3_growth_failure_wrong_error :
    (listNative c3Oracle ("/tmp/d")).res = none
    ∧ (listNative c3Oracle ("/tmp/d")).err
        = some ⟨nativeExceptionCls, some (strerror 0)⟩
    ∧ (listNative c3Oracle ("/tmp/d")).err ≠ some jgit_ThrowOutOfMemory
    ∧ (listNative c3Oracle ("/tmp/d")).dirLeaked = false
    ∧ (listNative c3Oracle ("/tmp/d")).pathLeaked = false
    ∧ (listNative c3Oracle ("/tmp/d")).entryLeaked = false
    ∧ (∀ (e : Nat) (pth : Option String),
        (jgit_ThrowErrno e pth).cls ≠ outOfMemoryCls) := by
  refine ⟨by decide, by decide, by decide, by decide, by decide, by decide, ?_⟩
  intro e pth
  unfold jgit_ThrowErrno
  split_ifs <;>
    simp [accessDeniedCls, noSuchFileCls, notDirectoryCls, nativeExceptionCls,
      outOfMemoryCls]

/-- C4: a successful list returns exactly one entry per dirent whose name
is not "." and not ".." (names merely beginning with '.' are kept), each
carrying that name and the classified type code (1 directory, 2 regular,
3 symlink, 0 anything else), and the returned collection's length equals
the number of such entries with every slot filled — no unused trailing
capacity. -/
theorem claim_C4_list_exact_contents (o : ListOracle) (pth : String)
    (arr : List (Option DirEnt))
    (h : (listNative o pth).res = some arr) :
    arr = (o.entries.filter (fun e => !isDotEntry e.d_name)).map
        (fun e => some (⟨e.d_name, dtype e⟩ : DirEnt))
    ∧ arr.length = (o.entries.filter (fun e => !isDotEntry e.d_name)).length
    ∧ (∀ s ∈ arr, s.isSome = true)
    ∧ (∀ nm, isDotEntry nm = true ↔ (nm = "." ∨ nm = ".."))
    ∧ (∀ nm, dtype ⟨nm, DT_DIR⟩ = 1 ∧ dtype ⟨nm, DT_REG⟩ = 2
        ∧ dtype ⟨nm, DT_LNK⟩ = 3)
    ∧ (∀ nm t2, t2 ≠ DT_DIR → t2 ≠ DT_REG → t2 ≠ DT_LNK →
        dtype ⟨nm, t2⟩ = 0) := by
  have hmain := listNative_success o pth arr h
  refine ⟨hmain, by simp [hmain], ?_, isDotEntry_iff, ?_, ?_⟩
  · intro s hs
    rw [hmain] at hs
    obtain ⟨x, hx, rfl⟩ := List.mem_map.mp hs
    rfl
  · intro nm
    exact ⟨rfl, rfl, rfl⟩
  · intro nm t2 h1 h2 h3
    simp [dtype, h1, h2, h3]

/-- C4 witness: the spec's example directory with an extra dotfile that
must survive the dot-entry filter. -/
theorem claim_C4_witness :
    c4Arr = (c4Oracle.entries.filter (fun e => !isDotEntry e.d_name)).map
        (fun e => some (⟨e.d_name, dtype e⟩ : DirEnt))
    ∧ c4Arr.length
        = (c4Oracle.entries.filter (fun e => !isDotEntry e.d_name)).length := by
  have h := claim_C4_list_exact_contents c4Oracle ("/tmp/d") c4Arr (by decide)
  exact ⟨h.1, h.2.1⟩

/-- C5: for every symlink read against an oracle obeying the `readlink`
contract (never reporting more bytes than the buffer holds, buffer of the
attempted size): the attempted buffer sizes form the exact doubling chain
128, 256, 512, ... (each retry uses exactly double the size); at most one
heap buffer is ever live (the previous one is freed before each retry)
and none remains at return; a returned string is built from exactly the
number of bytes the final read reported, with no truncation or padding;
and an oracle whose reads always fill the buffer exactly drives the size
to the wraparound check, which raises OutOfMemory. -/
theorem claim_C5_readlink_retry_discipline (o : RlOracle) (rp : String)
    (hconf : ∀ s : Nat, o.ret s ≤ (s : Int))
    (hdata : ∀ s : Nat, (o.data s).length = s) :
    (∃ r e tr, readlinkImp o rp = (.out r e, tr)
      ∧ (∃ m, tr.sizes = (List.range m).map (fun i => smallBufSz * 2 ^ i))
      ∧ tr.maxLive ≤ 1 ∧ tr.live = []
      ∧ (∀ bs, r = some bs → e = none ∧ ∃ s n : Nat, o.ret s = (n : Int)
          ∧ n < s ∧ bs = (o.data s).take n ∧ bs.length = n))
    ∧ (∀ (dat : Nat → List Char) (errAt : Nat → Nat) (e0 : Nat),
        ∃ tr2, readlinkImp
          { gsn := gsnOk, errno0 := e0, ret := fun s => (s : Int), data := dat,
            errnoAt := errAt, mallocOk := fun _ => true, newStrOk := true } rp
          = (.out none (some jgit_ThrowOutOfMemory), tr2)) := by
  constructor
  · rcases hg : (jgit_GetStringNative o.gsn o.errno0 rp).res with _ | p1
    · refine ⟨none, (jgit_GetStringNative o.gsn o.errno0 rp).pending, ⟨[], [], 0⟩,
        by simp [readlinkImp, hg], ⟨0, by simp⟩, by simp, by simp, ?_⟩
      intro bs hbs
      cases hbs
    · obtain ⟨r, e, tr, hout⟩ := rlLoop_total o p1 rlFuel smallBufSz none ⟨[], [], 0⟩
        (by norm_num [smallBufSz]) (by norm_num [smallBufSz, two64])
        (by norm_num [smallBufSz, two64, rlFuel])
      refine ⟨r, e, tr, by simp [readlinkImp, hg, hout], ?_, ?_, ?_, ?_⟩
      · obtain ⟨m, hm⟩ := rlLoop_sizes o p1 rlFuel smallBufSz 0 none ⟨[], [], 0⟩
          (by norm_num [smallBufSz, two64]) (by simp) (by simp)
        rw [hout] at hm
        exact ⟨m, hm⟩
      · have hr := rlLoop_resources o p1 rlFuel smallBufSz none ⟨[], [], 0⟩
          (by simp) (by simp)
        rw [hout] at hr
        exact hr.2
      · have hr := rlLoop_resources o p1 rlFuel smallBufSz none ⟨[], [], 0⟩
          (by simp) (by simp)
        rw [hout] at hr
        exact hr.1
      · intro bs hbs
        subst hbs
        exact rlLoop_success o p1 hconf hdata rlFuel smallBufSz none ⟨[], [], 0⟩
          bs e tr hout
  · intro dat errAt e0
    have hfit := rlLoop_exactfit
      { gsn := gsnOk, errno0 := e0, ret := fun s => (s : Int), data := dat,
        errnoAt := errAt, mallocOk := fun _ => true, newStrOk := true } rp
      (fun _ => rfl) (fun _ => rfl) rlFuel 7 none ⟨[], [], 0⟩
      (by norm_num) (by norm_num [rlFuel])
    obtain ⟨tr2, h2⟩ := hfit
    refine ⟨tr2, ?_⟩
    simp only [readlinkImp, jgit_GetStringNative, gsnOk]
    rw [show smallBufSz = 2 ^ 7 from rfl]
    simpa using h2

/-- C5 witness: a 200-byte link target exercises one growth (reads at 128
then 256), at most one live heap buffer, everything released. -/
theorem claim_C5_witness :
    ∃ r e tr, readlinkImp
        (fsRlOracle gsnOk 0 (some (List.replicate 200 'x')) 0) "/l"
      = (.out r e, tr)
      ∧ (∃ m, tr.sizes = (List.range m).map (fun i => smallBufSz * 2 ^ i))
      ∧ tr.maxLive ≤ 1 ∧ tr.live = [] := by
  obtain ⟨⟨r, e, tr, h1, h2, h3, h4, _⟩, _⟩ :=
    claim_C5_readlink_retry_discipline
      (fsRlOracle gsnOk 0 (some (List.replicate 200 'x')) 0) "/l"
      (fsRlOracle_conf gsnOk 0 0 (List.replicate 200 'x')).1
      (fsRlOracle_conf gsnOk 0 0 (List.replicate 200 'x')).2
  exact ⟨r, e, tr, h1, h2, h3, h4⟩

/-- C6: for every non-empty target string without a null byte and every
path where link creation succeeds, `createLink(p, t)` followed by
`readTarget(p)` returns exactly the bytes of `t`, unchanged. -/
theorem claim_C6_roundtrip (fs : String → Option (List Char)) (cp ct : String)
    (e0 e1 er : Nat)
    (hne : ct ≠ "")
    (hnul : ∀ c ∈ ct.data, c.toNat ≠ 0)
    (hs : (symlinkImp ⟨gsnOk, gsnOk, e0, none⟩ fs cp ct).err = none) :
    ∃ tr, readlinkImp (fsRlOracle gsnOk e1
        ((symlinkImp ⟨gsnOk, gsnOk, e0, none⟩ fs cp ct).fs2 cp) er) cp
      = (.out (some ct.data) none, tr) := by
  have hcb := cBytes_of_noNul ct hnul
  have hlen : (cBytes ct).length ≤ symlinkTargetMax := by
    by_contra hx
    simp [symlinkImp, jgit_GetStringNative, gsnOk, hx] at hs
  have hlen2 : ct.data.length ≤ symlinkTargetMax := by
    have h := hlen
    rwa [hcb] at h
  have hlen3 : ct.length ≤ symlinkTargetMax := hlen2
  have hfs2 : (symlinkImp ⟨gsnOk, gsnOk, e0, none⟩ fs cp ct).fs2 cp
      = some ct.data := by
    simp [symlinkImp, jgit_GetStringNative, gsnOk, hcb, hlen, hlen2, hlen3]
  rw [hfs2]
  have hc : ct.data.length < 2 ^ 63 := by
    rw [hcb] at hlen
    have hy : symlinkTargetMax < 2 ^ 63 := by norm_num [symlinkTargetMax]
    omega
  obtain ⟨tr', htr'⟩ := rlLoop_fs gsnOk e1 er ct.data cp hc rlFuel smallBufSz
    none ⟨[], [], 0⟩ (by norm_num [smallBufSz])
    (by norm_num [smallBufSz, two64]) (by norm_num [smallBufSz, two64, rlFuel])
  refine ⟨tr', ?_⟩
  simp only [readlinkImp]
  rw [show (jgit_GetStringNative (fsRlOracle gsnOk e1 (some ct.data) er).gsn
    (fsRlOracle gsnOk e1 (some ct.data) er).errno0 cp).res = some cp from rfl]
  exact htr'

/-- C6 witness: creating a link at "/p" with target "ab" and reading it
back yields exactly "ab"'s bytes. -/
theorem claim_C6_witness :
    ∃ tr, readlinkImp (fsRlOracle gsnOk 0
        ((symlinkImp ⟨gsnOk, gsnOk, 0, none⟩ (fun _ => none) "/p" "ab").fs2 ("/p")) 0) ("/p")
      = (.out (some ("ab").data) none, tr) :=
  claim_C6_roundtrip (fun _ => none) "/p" "ab" 0 0 0 (by decide) (by decide)
    (by decide)

/-- C7: the Error Translator is one pure mapping from the errno value:
EACCES, ENOENT and ENOTDIR yield the three path-carrying errors with the
original path string, every other errno yields the generic failure
carrying the system message; and each component that raises through it
(the enumerator, the symlink reader, the symlink creator) raises exactly
`jgit_ThrowErrno` of the errno in effect and the marshaled path. -/
theorem claim_C7_single_errno_mapping (e : Nat) (pth t2 : String)
    (fs : String → Option (List Char)) (e0 : Nat) (dat : Nat → List Char)
    (errAt : Nat → Nat) :
    jgit_ThrowErrno EACCES (some pth) = ⟨accessDeniedCls, some pth⟩
    ∧ jgit_ThrowErrno ENOENT (some pth) = ⟨noSuchFileCls, some pth⟩
    ∧ jgit_ThrowErrno ENOTDIR (some pth) = ⟨notDirectoryCls, some pth⟩
    ∧ (e ≠ EACCES → e ≠ ENOENT → e ≠ ENOTDIR →
        jgit_ThrowErrno e (some pth) = ⟨nativeExceptionCls, some (strerror e)⟩)
    ∧ (symlinkImp ⟨gsnOk, gsnOk, e0, some e⟩ fs pth t2).err
        = some (jgit_ThrowErrno e (some pth))
    ∧ (listNative ⟨gsnOk, e0, true, some e, [], false, fun _ => true⟩ pth).err
        = some (jgit_ThrowErrno e (some pth))
    ∧ (readlinkImp ⟨gsnOk, e0, fun _ => -1, dat, fun _ => e,
          fun _ => true, true⟩ pth).1
        = .out none (some (jgit_ThrowErrno e (some pth))) := by
  refine ⟨rfl, rfl, rfl, ?_, ?_, ?_, ?_⟩
  · intro h1 h2 h3
    simp [jgit_ThrowErrno, h1, h2, h3]
  · simp [symlinkImp, jgit_GetStringNative, gsnOk]
  · simp [listNative, jgit_GetStringNative, gsnOk]
  · simp only [readlinkImp, jgit_GetStringNative, gsnOk]
    rw [show rlFuel = 63 + 1 from rfl]
    simp [rlLoop]

/-- C7 witness: errno 5 (EIO) maps to the generic failure with the system
message, and the symlink creator raises exactly that error. -/
theorem claim_C7_witness :
    jgit_ThrowErrno 5 (some ("/x")) = ⟨nativeExceptionCls, some (strerror 5)⟩
    ∧ (symlinkImp ⟨gsnOk, gsnOk, 0, some 5⟩ (fun _ => none) "/x" "t").err
        = some (jgit_ThrowErrno 5 (some ("/x"))) := by
  have h := claim_C7_single_errno_mapping 5 ("/x") ("t") (fun _ => none) 0
    (fun _ => []) (fun _ => 0)
  exact ⟨h.2.2.2.1 (by decide) (by decide) (by decide), h.2.2.2.2.1⟩

/-- C9: registry load is all-or-nothing: it succeeds exactly when every
declared type, field and method resolution succeeds; a single failure
makes the whole load fail with the fatal status, and the failing load
carries no registry value at all, so no partially-resolved registry can
reach a later operation; a successful load resolves exactly the declared
handles, each requested exactly once (the request trace equals the
duplicate-free declared list). -/
theorem claim_C9_registry_all_or_nothing (o : ResolveOracle) :
    ((loadRegistry o).1 = .ok jgitDeclaredReqs
        ↔ ∀ r ∈ jgitDeclaredReqs, resolveOk o r = true)
    ∧ ((¬ ∀ r ∈ jgitDeclaredReqs, resolveOk o r = true)
        → (loadRegistry o).1 = .error ())
    ∧ (∀ reg, (loadRegistry o).1 = .ok reg → reg = jgitDeclaredReqs
        ∧ (loadRegistry o).2 = jgitDeclaredReqs)
    ∧ jgitDeclaredReqs.Nodup := by
  have hiff := loadSeq_ok_iff o jgitDeclaredReqs []
  refine ⟨?_, ?_, ?_, by decide⟩
  · constructor
    · intro h
      by_cases hok : (loadSeq o jgitDeclaredReqs []).1 = true
      · exact hiff.mp hok
      · simp only [loadRegistry] at h
        rw [if_neg hok] at h
        cases h
    · intro hall
      have hok := hiff.mpr hall
      simp only [loadRegistry]
      rw [if_pos hok]
  · intro hnot
    have hok : ¬(loadSeq o jgitDeclaredReqs []).1 = true := fun hx =>
      hnot (hiff.mp hx)
    simp only [loadRegistry]
    rw [if_neg hok]
  · intro reg h
    by_cases hok : (loadSeq o jgitDeclaredReqs []).1 = true
    · simp only [loadRegistry] at h ⊢
      rw [if_pos hok] at h
      refine ⟨by cases h; rfl, ?_⟩
      have ht := loadSeq_trace_of_ok o jgitDeclaredReqs [] hok
      simpa using ht
    · simp only [loadRegistry] at h
      rw [if_neg hok] at h
      cases h

/-- C9 witness: under an all-successful host, load returns the fully
resolved registry, and removing any single resolution fails the load. -/
theorem claim_C9_witness :
    (loadRegistry resolveAllOk).1 = .ok jgitDeclaredReqs
    ∧ (loadRegistry ⟨fun c => decide (c ≠ noSuchFileCls), fun _ _ _ => true,
        fun _ _ _ => true⟩).1 = .error () := by
  constructor
  · exact (claim_C9_registry_all_or_nothing resolveAllOk).1.mpr
      (fun r _ => by cases r <;> rfl)
  · refine (claim_C9_registry_all_or_nothing _).2.1 ?_
    intro hall
    have h := hall (.cls noSuchFileCls) (by decide)
    simp [resolveOk] at h

/-- C10: for every path and every behaviour of the underlying link-read
primitive, readTarget terminates with a definite outcome: the model's
fuel of 64 iterations is never exhausted, the loop performs at most 64
reads, and the attempted buffer sizes are exactly the doubling chain
starting at the 128-byte stack buffer, which reaches the wraparound check
in finitely many steps. -/
theorem claim_C10_readlink_terminates (o : RlOracle) (rp : String) :
    ∃ r e tr, readlinkImp o rp = (.out r e, tr)
    ∧ tr.sizes.length ≤ rlFuel
    ∧ (∃ m, tr.sizes = (List.range m).map (fun i => smallBufSz * 2 ^ i)) := by
  rcases hg : (jgit_GetStringNative o.gsn o.errno0 rp).res with _ | p1
  · exact ⟨none, (jgit_GetStringNative o.gsn o.errno0 rp).pending, ⟨[], [], 0⟩,
      by simp [readlinkImp, hg], by simp [rlFuel], ⟨0, by simp⟩⟩
  · obtain ⟨r, e, tr, hout⟩ := rlLoop_total o p1 rlFuel smallBufSz none ⟨[], [], 0⟩
      (by norm_num [smallBufSz]) (by norm_num [smallBufSz, two64])
      (by norm_num [smallBufSz, two64, rlFuel])
    refine ⟨r, e, tr, by simp [readlinkImp, hg, hout], ?_, ?_⟩
    · have hl := rlLoop_len o p1 rlFuel smallBufSz none ⟨[], [], 0⟩
      rw [hout] at hl
      simpa using hl
    · obtain ⟨m, hm⟩ := rlLoop_sizes o p1 rlFuel smallBufSz 0 none ⟨[], [], 0⟩
        (by norm_num [smallBufSz, two64]) (by simp) (by simp)
      rw [hout] at hm
      exact ⟨m, hm⟩

end JGit
